import Mathlib

/-!
# Verification of the procisics physics sandbox core

A shallow embedding, in exact rational (and where square roots are needed,
real) arithmetic, of the deterministic core of `src/lib/physics.ts` and
`src/pages/BouncingShapes.tsx`:

* the fixed-timestep integrator driver `stepWorldWithForces`;
* the pixel/meter unit conversions;
* the per-shape material model `materialFor` (randomness modelled by
  explicit sample arguments in `[0,1)`);
* the entity lifecycle pass `cleanupEntities` (cull + cap);
* the pointer-up click/drag disambiguation of `handlePointerUp`;
* the speed clamp `clampBodySpeed` and the radial force `applyRadialForce`
  (per-body force computation).

JavaScript numbers are modelled as exact arithmetic; `Math.random()` calls
become explicit parameters ranging over `[0,1)`.
-/

namespace Procisics

/-! ## Fixed-step integrator driver (`stepWorldWithForces`, physics.ts 230-261)

The driver state is the accumulator plus the simulation clock.  The `while`
loop of the source is embedded as the recursive `stepLoop`; each iteration of
the loop calls `world.step(timeStepSeconds)` once, which we record in the
`steps` counter.  The source loop diverges when `timeStepSeconds <= 0`
(the condition `accumulator >= timeStep` then never becomes false), so the
embedding guards the recursion with `0 < ts`; every theorem below assumes a
positive timestep, as in the source where it is always `1/60`. -/

/-- The mutable locals of one `stepWorldWithForces` call: the accumulator,
the `advanced` total, the simulation clock `simTimeRef.current`, and a count
of `world.step` invocations. -/
structure LoopState where
  acc : ℚ
  advanced : ℚ
  simTime : ℚ
  steps : ℕ
  deriving Repr, DecidableEq

/-- The `while (accumulator >= timeStep)` loop of `stepWorldWithForces`:
each iteration applies forces, steps the world by `ts`, moves `ts` from the
accumulator into `advanced` and the sim clock. -/
def stepLoop (ts : ℚ) (s : LoopState) : LoopState :=
  if h : 0 < ts ∧ ts ≤ s.acc then
    stepLoop ts ⟨s.acc - ts, s.advanced + ts, s.simTime + ts, s.steps + 1⟩
  else
    s
termination_by (⌊s.acc / ts⌋).toNat
decreasing_by
  have hts := h.1
  have h1 : (1 : ℚ) ≤ s.acc / ts := (le_div_iff₀ hts).mpr (by linarith [h.2])
  have hfloor : ⌊(s.acc - ts) / ts⌋ = ⌊s.acc / ts⌋ - 1 := by
    rw [sub_div, div_self (ne_of_gt hts), Int.floor_sub_one]
  have hge : (1 : ℤ) ≤ ⌊s.acc / ts⌋ := Int.le_floor.mpr (by exact_mod_cast h1)
  simp only [hfloor]
  omega

/-- Unfolding `stepLoop` when the loop guard fails. -/
theorem stepLoop_exit (ts : ℚ) (s : LoopState) (h : ¬(0 < ts ∧ ts ≤ s.acc)) :
    stepLoop ts s = s := by
  rw [stepLoop, dif_neg h]

/-- Unfolding `stepLoop` when the loop guard holds: one more iteration. -/
theorem stepLoop_enter (ts : ℚ) (s : LoopState) (h : 0 < ts ∧ ts ≤ s.acc) :
    stepLoop ts s =
      stepLoop ts ⟨s.acc - ts, s.advanced + ts, s.simTime + ts, s.steps + 1⟩ := by
  rw [stepLoop, dif_pos h]

/-- `stepWorldWithForces(world, accumulatorRef, dtSeconds, timeStepSeconds,
simTimeRef, applyForces, afterStep)`: add `dt` to the accumulator, run the
fixed-step loop, then perform one closing step of size equal to the leftover
accumulator if it is positive.  Returns
`(advanced, new accumulator, new simTime, number of world.step calls)`. -/
def stepWorldWithForces (ts acc dt simTime : ℚ) : ℚ × ℚ × ℚ × ℕ :=
  let s1 := stepLoop ts ⟨acc + dt, 0, simTime, 0⟩
  if 0 < s1.acc then
    (s1.advanced + s1.acc, 0, s1.simTime + s1.acc, s1.steps + 1)
  else
    (s1.advanced, s1.acc, s1.simTime, s1.steps)

/-- Feed a sequence of per-frame `dt` values into `stepWorldWithForces`,
threading the accumulator and sim clock; returns
`(total advanced, final accumulator, final simTime)`. -/
def runDriver (ts : ℚ) (acc simTime : ℚ) : List ℚ → ℚ × ℚ × ℚ
  | [] => (0, acc, simTime)
  | dt :: rest =>
      let r := stepWorldWithForces ts acc dt simTime
      let rec' := runDriver ts r.2.1 r.2.2.1 rest
      (r.1 + rec'.1, rec'.2.1, rec'.2.2)

/-- Everything the fixed-step loop does, in one statement: it performs some
number `k` of full steps, moving `k·ts` from the accumulator to `advanced`
and the sim clock, leaves less than one timestep in the accumulator, and
performs at least one step whenever it could. -/
theorem stepLoop_spec (ts : ℚ) (s : LoopState) :
    ∃ k : ℕ,
      (stepLoop ts s).steps = s.steps + k ∧
      (stepLoop ts s).advanced = s.advanced + k * ts ∧
      (stepLoop ts s).acc = s.acc - k * ts ∧
      (stepLoop ts s).simTime = s.simTime + k * ts ∧
      (0 < ts → (stepLoop ts s).acc < ts) ∧
      (0 ≤ s.acc → 0 ≤ (stepLoop ts s).acc) ∧
      (0 < ts → ts ≤ s.acc → 1 ≤ k) := by
  induction s using stepLoop.induct ts with
  | case1 s h ih =>
      obtain ⟨k, hsteps, hadv, hacc, hsim, hlt, hnn, hone⟩ := ih
      simp only at hsteps hadv hacc hsim hlt hnn hone
      rw [stepLoop_enter ts s h]
      refine ⟨k + 1, ?_, ?_, ?_, ?_, ?_, ?_, ?_⟩
      · rw [hsteps]; ring
      · rw [hadv]; push_cast; ring
      · rw [hacc]; push_cast; ring
      · rw [hsim]; push_cast; ring
      · exact hlt
      · intro _
        exact hnn (by linarith [h.1, h.2])
      · intro _ _; omega
  | case2 s h =>
      rw [stepLoop_exit ts s h]
      refine ⟨0, by ring, by push_cast; ring, by push_cast; ring, by push_cast; ring,
        ?_, fun hs => hs, ?_⟩
      · intro hts
        by_contra hc
        exact h ⟨hts, le_of_not_lt hc⟩
      · intro hts hle
        exact absurd ⟨hts, hle⟩ h

/-- One call to `stepWorldWithForces` with a nonnegative accumulator and a
nonnegative `dt` advances the engine and the sim clock by exactly
`acc + dt` and leaves the accumulator at `0`. -/
theorem stepWorldWithForces_advanced (ts acc dt simTime : ℚ)
    (hacc : 0 ≤ acc) (hdt : 0 ≤ dt) :
    (stepWorldWithForces ts acc dt simTime).1 = acc + dt ∧
    (stepWorldWithForces ts acc dt simTime).2.1 = 0 ∧
    (stepWorldWithForces ts acc dt simTime).2.2.1 = simTime + (acc + dt) := by
  obtain ⟨k, hsteps, hadv, haccl, hsim, _, hnn, _⟩ :=
    stepLoop_spec ts ⟨acc + dt, 0, simTime, 0⟩
  simp only at hsteps hadv haccl hsim hnn
  simp only [stepWorldWithForces]
  set s1 := stepLoop ts ⟨acc + dt, 0, simTime, 0⟩ with hs1
  have hnn' : 0 ≤ s1.acc := hnn (by linarith)
  by_cases hpos : 0 < s1.acc
  · simp only [if_pos hpos]
    exact ⟨by linarith, by trivial, by linarith⟩
  · have hzero : s1.acc = 0 := le_antisymm (le_of_not_lt hpos) hnn'
    simp only [if_neg hpos]
    exact ⟨by linarith, hzero, by linarith⟩

/-- C1. Accumulator conservation: starting from accumulator `0`, feeding any
sequence of nonnegative `dt` values into `stepWorldWithForces` (with a
positive fixed timestep) advances the engine by exactly the sum of the `dt`s
— the sum of the returned values equals the increase of `simTimeRef` equals
`dts.sum` — however it is split into full fixed steps and closing steps.
(Exact-arithmetic model, so the floating-point tolerance is `0`.) -/
theorem accumulator_conservation (ts simTime0 : ℚ) (dts : List ℚ)
    (hts : 0 < ts) (hdts : ∀ dt ∈ dts, 0 ≤ dt) :
    (runDriver ts 0 simTime0 dts).1 = dts.sum ∧
    (runDriver ts 0 simTime0 dts).2.2 = simTime0 + dts.sum := by
  have _ := hts
  induction dts generalizing simTime0 with
  | nil => simp [runDriver]
  | cons dt rest ih =>
      obtain ⟨h1, h2, h3⟩ :=
        stepWorldWithForces_advanced ts 0 dt simTime0 le_rfl
          (hdts dt (List.mem_cons_self dt rest))
      simp only [runDriver, h1, h2, h3]
      have hrest := ih (simTime0 + (0 + dt))
        (fun d hd => hdts d (List.mem_cons_of_mem dt hd))
      rw [hrest.1, hrest.2]
      constructor <;> (simp [List.sum_cons]; try ring)

/-- Witness for C1 at `ts = 1/60`, `dts = [1/30, 1/100]`. -/
theorem accumulator_conservation_witness :
    (0 < (1/60 : ℚ) ∧ ∀ dt ∈ [(1/30 : ℚ), 1/100], 0 ≤ dt) ∧
    (runDriver (1/60) 0 0 [(1/30 : ℚ), 1/100]).1 = [(1/30 : ℚ), 1/100].sum := by
  have h1 : 0 < (1/60 : ℚ) := by norm_num
  have h2 : ∀ dt ∈ [(1/30 : ℚ), 1/100], 0 ≤ dt := by
    intro dt hdt
    rcases List.mem_cons.mp hdt with h | h
    · rw [h]; norm_num
    · rcases List.mem_cons.mp h with h' | h'
      · rw [h']; norm_num
      · cases h'
  exact ⟨⟨h1, h2⟩, (accumulator_conservation (1/60) 0 [(1/30 : ℚ), 1/100] h1 h2).1⟩

/-- C2 (amended): a single `stepWorldWithForces` call performs at least one
`world.step` provided the accumulator plus `dt` is positive; when both are
zero the call performs no step at all (see the counterexample). -/
theorem stepWorldWithForces_steps_pos (ts acc dt simTime : ℚ)
    (hts : 0 < ts) (hacc : 0 ≤ acc) (hdt : 0 ≤ dt) (hsum : 0 < acc + dt) :
    1 ≤ (stepWorldWithForces ts acc dt simTime).2.2.2 := by
  have _ := hts
  have _ := hdt
  have _ := hacc
  obtain ⟨k, hsteps, hadv, haccl, hsim, _, hnn, _⟩ :=
    stepLoop_spec ts ⟨acc + dt, 0, simTime, 0⟩
  simp only at hsteps hadv haccl hsim hnn
  simp only [stepWorldWithForces]
  set s1 := stepLoop ts ⟨acc + dt, 0, simTime, 0⟩ with hs1
  by_cases hp : 0 < s1.acc
  · simp only [if_pos hp]
    exact Nat.le_add_left 1 _
  · simp only [if_neg hp]
    have h0 : s1.acc = 0 := le_antisymm (not_lt.mp hp) (hnn (by linarith))
    have hk : (k : ℚ) * ts = acc + dt := by
      rw [haccl] at h0; linarith
    have hk1 : 1 ≤ k := by
      rcases Nat.eq_zero_or_pos k with hk0 | hk0
      · rw [hk0] at hk
        push_cast at hk
        linarith
      · exact hk0
    omega

/-- Witness for the amended C2 at `ts = 1/60`, `acc = 0`, `dt = 1/100`. -/
theorem stepWorldWithForces_steps_pos_witness :
    (0 < (1/60 : ℚ) ∧ (0:ℚ) ≤ 0 ∧ (0:ℚ) ≤ 1/100 ∧ (0:ℚ) < 0 + 1/100) ∧
    1 ≤ (stepWorldWithForces (1/60) 0 (1/100) 0).2.2.2 := by
  refine ⟨⟨by norm_num, le_rfl, by norm_num, by norm_num⟩, ?_⟩
  exact stepWorldWithForces_steps_pos (1/60) 0 (1/100) 0
    (by norm_num) le_rfl (by norm_num) (by norm_num)

/-- Counterexample to C2 as stated: with accumulator `0` and `dt = 0` (both
allowed by the claim, which only requires them nonnegative), the call
performs zero steps — `world.step` is never invoked. -/
theorem stepWorldWithForces_zero_dt_no_step :
    (0:ℚ) ≤ 0 ∧ (stepWorldWithForces (1/60) 0 0 0).2.2.2 = 0 := by
  refine ⟨le_rfl, ?_⟩
  have hexit : stepLoop (1/60) ⟨0 + 0, 0, 0, 0⟩ = ⟨0 + 0, 0, 0, 0⟩ := by
    refine stepLoop_exit _ _ ?_
    rintro ⟨-, hle⟩
    norm_num at hle
  simp only [stepWorldWithForces, hexit]
  norm_num

/-! ## Unit conversion (physics.ts 82-88) -/

/-- `pixelsToMeters(pixels, pixelsPerMeter) = pixels / pixelsPerMeter`
(generic in the number field, used at `ℚ` and at `ℝ`). -/
def pixelsToMeters {α : Type} [DivisionRing α] (pixels pixelsPerMeter : α) : α :=
  pixels / pixelsPerMeter

/-- `metersToPixels(meters, pixelsPerMeter) = meters * pixelsPerMeter`. -/
def metersToPixels {α : Type} [DivisionRing α] (meters pixelsPerMeter : α) : α :=
  meters * pixelsPerMeter

/-- C8. Unit round-trip: for `ppm > 0`,
`metersToPixels (pixelsToMeters px ppm) ppm = px` — exactly, in the
exact-arithmetic model. -/
theorem metersToPixels_pixelsToMeters (px ppm : ℚ) (hppm : 0 < ppm) :
    metersToPixels (pixelsToMeters px ppm) ppm = px := by
  unfold metersToPixels pixelsToMeters
  field_simp

/-- Witness for C8 at `px = 7`, `ppm = 50`. -/
theorem metersToPixels_pixelsToMeters_witness :
    0 < (50 : ℚ) ∧ metersToPixels (pixelsToMeters (7 : ℚ) 50) 50 = 7 :=
  ⟨by norm_num, metersToPixels_pixelsToMeters 7 50 (by norm_num)⟩

/-! ## Material model (physics.ts 32-75)

`Math.random()` returns a sample in `[0,1)`; `materialFor` makes three
independent calls (one per jittered field), modelled as the three explicit
arguments `r1 r2 r3`.  The embedding is a pure function of its arguments, so
the source property that each call reads only the fixed base table and
mutates no shared state is inherent to the model. -/

/-- The shape kinds of the sandbox. -/
inductive ShapeKind where
  | circle
  | box
  | triangle
  deriving Repr, DecidableEq

/-- A `(density, friction, restitution)` triple. -/
structure MaterialProfile where
  density : ℚ
  friction : ℚ
  restitution : ℚ
  deriving Repr, DecidableEq

/-- The fixed per-shape base material table `MATERIALS`. -/
def MATERIALS : ShapeKind → MaterialProfile
  | .circle => ⟨8/10, 15/100, 9/10⟩
  | .box => ⟨15/10, 45/100, 2/10⟩
  | .triangle => ⟨11/10, 3/10, 55/100⟩

/-- `clamp01(v) = Math.max(0, Math.min(1, v))`. -/
def clamp01 (v : ℚ) : ℚ :=
  max 0 (min 1 v)

/-- `jitter(value, amount) = value + (Math.random() * 2 - 1) * amount`,
with the `Math.random()` sample `r` made explicit. -/
def jitter (value amount r : ℚ) : ℚ :=
  value + (r * 2 - 1) * amount

/-- `materialFor(kind)`: jittered copy of the base profile, density floored
at `0.1`, friction and restitution clamped to `[0,1]`. -/
def materialFor (kind : ShapeKind) (r1 r2 r3 : ℚ) : MaterialProfile :=
  let base := MATERIALS kind
  { density := max (1/10) (jitter base.density (1/10) r1)
    friction := clamp01 (jitter base.friction (3/100) r2)
    restitution := clamp01 (jitter base.restitution (5/100) r3) }

/-- C5. Material bounds: for every shape kind and every outcome of the
random jitter, `materialFor` returns friction in `[0,1]`, restitution in
`[0,1]`, and density at least the floor `0.1 > 0`.  (This holds for all
real jitter samples, in particular for samples in `[0,1)`.) -/
theorem materialFor_bounds (kind : ShapeKind) (r1 r2 r3 : ℚ) :
    1/10 ≤ (materialFor kind r1 r2 r3).density ∧
    0 < (materialFor kind r1 r2 r3).density ∧
    0 ≤ (materialFor kind r1 r2 r3).friction ∧
    (materialFor kind r1 r2 r3).friction ≤ 1 ∧
    0 ≤ (materialFor kind r1 r2 r3).restitution ∧
    (materialFor kind r1 r2 r3).restitution ≤ 1 := by
  unfold materialFor clamp01
  refine ⟨le_max_left _ _, lt_of_lt_of_le (by norm_num) (le_max_left _ _),
    le_max_left _ _, ?_, le_max_left _ _, ?_⟩
  · exact max_le (by norm_num) (min_le_left _ _)
  · exact max_le (by norm_num) (min_le_left _ _)

/-! ## Entity lifecycle pass (`cleanupEntities`, BouncingShapes.tsx 82-113)

An entity is modelled by its body's position in meters plus a body
identifier (standing for the `planck.Body` handle).  `cleanupEntities`
returns the new active list together with the list of bodies passed to
`world.destroyBody`, in call order. -/

/-- `CONFIG.PPM` — pixels per meter. -/
def PPM : ℚ := 50

/-- `CONFIG.MAX_ENTITIES` — maximum entities before cleanup. -/
def MAX_ENTITIES : ℕ := 260

/-- `CONFIG.ENTITY_MARGIN` — pixels outside the viewport before cleanup. -/
def ENTITY_MARGIN : ℚ := 200

/-- An active entity: body position (simulation meters) and body handle. -/
structure Entity where
  posX : ℚ
  posY : ℚ
  bodyId : ℕ
  deriving Repr, DecidableEq

/-- The cull test of `cleanupEntities`: pixel position (`pos * PPM`) beyond
the margin outside the left, right or bottom viewport edge.  There is no
top-edge test. -/
def entityOutOfBounds (width height : ℚ) (e : Entity) : Bool :=
  let x := e.posX * PPM
  let y := e.posY * PPM
  x < -ENTITY_MARGIN || x > width + ENTITY_MARGIN || y > height + ENTITY_MARGIN

/-- `cleanupEntities(world, entities, width, height)`: drop (and destroy)
the out-of-bounds entities, then if more than `MAX_ENTITIES` remain, destroy
and drop the oldest surplus from the front of the list.  Returns
`(remaining, destroyed)`. -/
def cleanupEntities (width height : ℚ) (entities : List Entity) :
    List Entity × List Entity :=
  let remaining := entities.filter fun e => !(entityOutOfBounds width height e)
  let culled := entities.filter fun e => entityOutOfBounds width height e
  if MAX_ENTITIES < remaining.length then
    let toRemove := remaining.length - MAX_ENTITIES
    (remaining.drop toRemove, culled ++ remaining.take toRemove)
  else
    (remaining, culled)

/-- The cull test, written out: pixel `x` below `-margin`, pixel `x` beyond
`width + margin`, or pixel `y` beyond `height + margin`; nothing about the
top edge. -/
theorem entityOutOfBounds_iff (width height : ℚ) (e : Entity) :
    entityOutOfBounds width height e = true ↔
      e.posX * PPM < -ENTITY_MARGIN ∨ width + ENTITY_MARGIN < e.posX * PPM ∨
        height + ENTITY_MARGIN < e.posY * PPM := by
  simp [entityOutOfBounds, or_assoc]

/-- C3. Cap enforcement with oldest-first eviction: when the in-bounds
entities number more than `MAX_ENTITIES`, one `cleanupEntities` pass returns
exactly `MAX_ENTITIES` entities, namely the most-recently-inserted in-bounds
ones (the in-bounds list with its oldest surplus dropped from the front),
and every entity that does not survive is passed to `world.destroyBody`. -/
theorem cleanupEntities_cap (width height : ℚ) (entities : List Entity)
    (hover : MAX_ENTITIES <
      (entities.filter fun e => !(entityOutOfBounds width height e)).length) :
    (cleanupEntities width height entities).1.length = MAX_ENTITIES ∧
    (cleanupEntities width height entities).1 =
      (entities.filter fun e => !(entityOutOfBounds width height e)).drop
        ((entities.filter fun e => !(entityOutOfBounds width height e)).length
          - MAX_ENTITIES) ∧
    ∀ e ∈ entities, e ∉ (cleanupEntities width height entities).1 →
      e ∈ (cleanupEntities width height entities).2 := by
  simp only [cleanupEntities, if_pos hover]
  refine ⟨?_, by trivial, ?_⟩
  · rw [List.length_drop]
    omega
  · intro e he hnot
    by_cases hout : entityOutOfBounds width height e = true
    · exact List.mem_append_left _ (List.mem_filter.mpr ⟨he, hout⟩)
    · have hmem : e ∈ entities.filter fun x => !(entityOutOfBounds width height x) :=
        List.mem_filter.mpr ⟨he, by simp [hout]⟩
      rw [← List.take_append_drop
        ((entities.filter fun x => !(entityOutOfBounds width height x)).length
          - MAX_ENTITIES)
        (entities.filter fun x => !(entityOutOfBounds width height x))] at hmem
      rcases List.mem_append.mp hmem with htake | hdrop
      · exact List.mem_append_right _ htake
      · exact absurd hdrop hnot

/-- C4 (amended). Cull margins: provided the in-bounds entities do not
exceed `MAX_ENTITIES` (so the cap pass does not also evict), one
`cleanupEntities` pass removes an entity from the active set, and destroys
its body, exactly when its pixel position is beyond the margin outside the
left, right or bottom edge; in particular an entity arbitrarily far above
the top edge (pixel `y` very negative) is retained. -/
theorem cleanupEntities_cull_iff (width height : ℚ) (e : Entity)
    (entities : List Entity)
    (hcap : (entities.filter fun x => !(entityOutOfBounds width height x)).length
      ≤ MAX_ENTITIES)
    (he : e ∈ entities) :
    (e ∉ (cleanupEntities width height entities).1 ↔
      (e.posX * PPM < -ENTITY_MARGIN ∨ width + ENTITY_MARGIN < e.posX * PPM ∨
        height + ENTITY_MARGIN < e.posY * PPM)) ∧
    (e ∈ (cleanupEntities width height entities).2 ↔
      (e.posX * PPM < -ENTITY_MARGIN ∨ width + ENTITY_MARGIN < e.posX * PPM ∨
        height + ENTITY_MARGIN < e.posY * PPM)) := by
  rw [← entityOutOfBounds_iff]
  simp only [cleanupEntities, if_neg (not_lt.mpr hcap)]
  constructor
  · constructor
    · intro hnot
      by_contra hout
      exact hnot (List.mem_filter.mpr ⟨he, by simp [hout]⟩)
    · intro hout hmem
      have := (List.mem_filter.mp hmem).2
      simp [hout] at this
  · constructor
    · intro hmem
      exact (List.mem_filter.mp hmem).2
    · intro hout
      exact List.mem_filter.mpr ⟨he, hout⟩

/-- C10. The lifecycle pass returns a subsequence of its input: surviving
entities keep their relative insertion order and nothing new is added, so
oldest-first eviction by spawn order stays meaningful across frames. -/
theorem cleanupEntities_sublist (width height : ℚ) (entities : List Entity) :
    List.Sublist (cleanupEntities width height entities).1 entities := by
  unfold cleanupEntities
  by_cases h : MAX_ENTITIES <
      (entities.filter fun e => !(entityOutOfBounds width height e)).length
  · simp only [if_pos h]
    exact (List.drop_sublist _ _).trans (List.filter_sublist _)
  · simp only [if_neg h]
    exact List.filter_sublist _

/-! ### A concrete over-cap entity list

261 entities resting at the origin, spawned in body-id order.  All are
in bounds for an 800×600 viewport, and 261 exceeds `MAX_ENTITIES = 260`. -/

/-- 261 in-bounds entities in insertion order. -/
def capEntityList : List Entity :=
  (List.range 261).map fun i => ⟨0, 0, i⟩

/-- Every entity of `capEntityList` passes the in-bounds test. -/
theorem capEntityList_inbounds :
    ∀ e ∈ capEntityList, entityOutOfBounds 800 600 e = false := by
  intro e he
  obtain ⟨i, -, rfl⟩ := List.mem_map.mp he
  norm_num [entityOutOfBounds, PPM, ENTITY_MARGIN]

/-- The cull pass keeps all of `capEntityList`. -/
theorem capEntityList_filter :
    capEntityList.filter (fun e => !(entityOutOfBounds 800 600 e)) = capEntityList :=
  List.filter_eq_self.mpr fun a ha => by rw [capEntityList_inbounds a ha]; rfl

/-- `capEntityList` has 261 entities. -/
theorem capEntityList_length : capEntityList.length = 261 := by
  simp [capEntityList]

/-- `capEntityList` has more in-bounds entities than the cap. -/
theorem capEntityList_over_cap :
    MAX_ENTITIES <
      (capEntityList.filter fun e => !(entityOutOfBounds 800 600 e)).length := by
  rw [capEntityList_filter, capEntityList_length]
  norm_num [MAX_ENTITIES]

/-- Witness for C3 on `capEntityList` (261 in-bounds entities, 800×600
viewport): the pass returns exactly `MAX_ENTITIES` entities. -/
theorem cleanupEntities_cap_witness :
    (MAX_ENTITIES <
      (capEntityList.filter fun e => !(entityOutOfBounds 800 600 e)).length) ∧
    (cleanupEntities 800 600 capEntityList).1.length = MAX_ENTITIES :=
  ⟨capEntityList_over_cap,
    (cleanupEntities_cap 800 600 capEntityList capEntityList_over_cap).1⟩

/-- Counterexample to C4 as stated: the oldest entity of `capEntityList`
is in bounds (its pixel position violates none of the margin conditions),
yet one `cleanupEntities` pass removes it — the cap pass evicts it. -/
theorem cleanupEntities_cap_evicts_inbounds :
    entityOutOfBounds 800 600 ⟨0, 0, 0⟩ = false ∧
    (⟨0, 0, 0⟩ : Entity) ∈ capEntityList ∧
    (⟨0, 0, 0⟩ : Entity) ∉ (cleanupEntities 800 600 capEntityList).1 := by
  refine ⟨by norm_num [entityOutOfBounds, PPM, ENTITY_MARGIN], ?_, ?_⟩
  · exact List.mem_map.mpr ⟨0, by simp, rfl⟩
  · simp only [cleanupEntities, if_pos capEntityList_over_cap, capEntityList_filter,
      capEntityList_length]
    have hdrop : capEntityList.drop (261 - MAX_ENTITIES) =
        (List.map Nat.succ (List.range 260)).map fun i => (⟨0, 0, i⟩ : Entity) := by
      have : (261 - MAX_ENTITIES) = 1 := by norm_num [MAX_ENTITIES]
      rw [this, capEntityList, List.range_succ_eq_map, List.map_cons, List.drop_one,
        List.tail_cons]
    rw [hdrop]
    intro hmem
    obtain ⟨j, hjmem, hj⟩ := List.mem_map.mp hmem
    obtain ⟨i, -, rfl⟩ := List.mem_map.mp hjmem
    simp only [Entity.mk.injEq] at hj
    exact Nat.succ_ne_zero i hj.2.2

/-- Witness for the amended C4: a body 1000 px below an 800×600 viewport is
culled (removed and destroyed), one 150 px above the top edge is kept. -/
theorem cleanupEntities_cull_iff_witness :
    (([(⟨4, 32, 5⟩ : Entity), ⟨4, -3, 6⟩].filter
        fun x => !(entityOutOfBounds 800 600 x)).length ≤ MAX_ENTITIES ∧
      (⟨4, 32, 5⟩ : Entity) ∈ [(⟨4, 32, 5⟩ : Entity), ⟨4, -3, 6⟩] ∧
      (⟨4, -3, 6⟩ : Entity) ∈ [(⟨4, 32, 5⟩ : Entity), ⟨4, -3, 6⟩]) ∧
    (⟨4, 32, 5⟩ : Entity) ∉
      (cleanupEntities 800 600 [(⟨4, 32, 5⟩ : Entity), ⟨4, -3, 6⟩]).1 ∧
    ¬((⟨4, -3, 6⟩ : Entity) ∉
      (cleanupEntities 800 600 [(⟨4, 32, 5⟩ : Entity), ⟨4, -3, 6⟩]).1) := by
  have hcap : ([(⟨4, 32, 5⟩ : Entity), ⟨4, -3, 6⟩].filter
      fun x => !(entityOutOfBounds 800 600 x)).length ≤ MAX_ENTITIES := by
    refine le_trans (List.length_filter_le _ _) ?_
    norm_num [MAX_ENTITIES]
  have h1 : (⟨4, 32, 5⟩ : Entity) ∈ [(⟨4, 32, 5⟩ : Entity), ⟨4, -3, 6⟩] :=
    List.mem_cons_self _ _
  have h2 : (⟨4, -3, 6⟩ : Entity) ∈ [(⟨4, 32, 5⟩ : Entity), ⟨4, -3, 6⟩] :=
    List.mem_cons_of_mem _ (List.mem_cons_self _ _)
  refine ⟨⟨hcap, h1, h2⟩, ?_, ?_⟩
  · exact (cleanupEntities_cull_iff 800 600 ⟨4, 32, 5⟩ _ hcap h1).1.mpr
      (by norm_num [PPM, ENTITY_MARGIN])
  · intro hnot
    have := (cleanupEntities_cull_iff 800 600 ⟨4, -3, 6⟩ _ hcap h2).1.mp hnot
    norm_num [PPM, ENTITY_MARGIN] at this

/-! ## Pointer-up click/drag disambiguation
(`handlePointerUp`, BouncingShapes.tsx 192-230)

The handler reads the press start `(start.x, start.y, start.t)` and the
release point `p` at time `now` (`performance.now()`), and spawns an entity
whose initial velocity depends on the press duration.  The two
`Math.random()` samples of the click branch are the explicit arguments
`r1 r2 ∈ [0,1)`; the embedding returns the `(vxPx, vyPx)` passed to
`createEntityAtPosition`. -/

/-- `CONFIG.CLICK_THRESHOLD_MS`. -/
def CLICK_THRESHOLD_MS : ℚ := 150

/-- `VELOCITY_RANGES.CLICK_VX_RANGE`. -/
def CLICK_VX_RANGE : ℚ := 120

/-- `VELOCITY_RANGES.CLICK_VY_BASE`. -/
def CLICK_VY_BASE : ℚ := 200

/-- `VELOCITY_RANGES.CLICK_VY_RANGE`. -/
def CLICK_VY_RANGE : ℚ := 160

/-- `VELOCITY_RANGES.DRAG_MULTIPLIER`. -/
def DRAG_MULTIPLIER : ℚ := 6/10

/-- The spawn velocity chosen by `handlePointerUp`:
`dtMs = max(16, now - start.t)`; a press of at most `CLICK_THRESHOLD_MS`
is a click (small random velocity, downward bias), a longer press is a
drag-to-throw (displacement over elapsed time, scaled by
`DRAG_MULTIPLIER`). -/
def handlePointerUpVel (startX startY startT pX pY now r1 r2 : ℚ) : ℚ × ℚ :=
  let dtMs := max 16 (now - startT)
  let vxPx := (pX - startX) / (dtMs / 1000)
  let vyPx := (pY - startY) / (dtMs / 1000)
  if dtMs ≤ CLICK_THRESHOLD_MS then
    ((r1 - 1/2) * CLICK_VX_RANGE, CLICK_VY_BASE + r2 * CLICK_VY_RANGE)
  else
    (vxPx * DRAG_MULTIPLIER, vyPx * DRAG_MULTIPLIER)

/-- C6. Click vs drag: with random samples in `[0,1)`, a press of at most
150 ms spawns with `vxPx ∈ [-60, 60]` and `vyPx ∈ [200, 360]` (downward
bias); a longer press spawns with velocity `(dx/dt, dy/dt)` scaled by the
drag multiplier `0.6` (with `dt = (now - startT)/1000` seconds), so the
horizontal velocity sign matches the sign of the horizontal displacement. -/
theorem handlePointerUpVel_click_drag (startX startY startT pX pY now r1 r2 : ℚ)
    (hr1 : 0 ≤ r1 ∧ r1 < 1) (hr2 : 0 ≤ r2 ∧ r2 < 1) :
    (now - startT ≤ 150 →
      -60 ≤ (handlePointerUpVel startX startY startT pX pY now r1 r2).1 ∧
      (handlePointerUpVel startX startY startT pX pY now r1 r2).1 ≤ 60 ∧
      200 ≤ (handlePointerUpVel startX startY startT pX pY now r1 r2).2 ∧
      (handlePointerUpVel startX startY startT pX pY now r1 r2).2 ≤ 360) ∧
    (150 < now - startT →
      handlePointerUpVel startX startY startT pX pY now r1 r2 =
        ((pX - startX) / ((now - startT) / 1000) * DRAG_MULTIPLIER,
         (pY - startY) / ((now - startT) / 1000) * DRAG_MULTIPLIER) ∧
      (0 < pX - startX →
        0 < (handlePointerUpVel startX startY startT pX pY now r1 r2).1) ∧
      (pX - startX < 0 →
        (handlePointerUpVel startX startY startT pX pY now r1 r2).1 < 0)) := by
  constructor
  · intro hshort
    have hdt : max 16 (now - startT) ≤ CLICK_THRESHOLD_MS := by
      rw [CLICK_THRESHOLD_MS]
      exact max_le (by norm_num) hshort
    simp only [handlePointerUpVel, if_pos hdt, CLICK_VX_RANGE, CLICK_VY_BASE,
      CLICK_VY_RANGE]
    refine ⟨by nlinarith [hr1.1, hr1.2], by nlinarith [hr1.1, hr1.2],
      by nlinarith [hr2.1, hr2.2], by nlinarith [hr2.1, hr2.2]⟩
  · intro hlong
    have hmax : max 16 (now - startT) = now - startT :=
      max_eq_right (by linarith)
    have hdt : ¬(now - startT ≤ CLICK_THRESHOLD_MS) := by
      rw [CLICK_THRESHOLD_MS]
      linarith
    simp only [handlePointerUpVel, hmax, if_neg hdt]
    have hpos : 0 < (now - startT) / 1000 := div_pos (by linarith) (by norm_num)
    refine ⟨by trivial, ?_, ?_⟩
    · intro hdx
      exact mul_pos (div_pos hdx hpos) (by norm_num [DRAG_MULTIPLIER])
    · intro hdx
      exact mul_neg_of_neg_of_pos (div_neg_of_neg_of_pos hdx hpos)
        (by norm_num [DRAG_MULTIPLIER])

/-- Witness for C6: a 100 ms press (click) and a 400 ms press with
`dx = 100` (drag, spawning with positive horizontal velocity). -/
theorem handlePointerUpVel_click_drag_witness :
    ((0:ℚ) ≤ 1/2 ∧ (1/2:ℚ) < 1 ∧ (0:ℚ) ≤ 1/4 ∧ (1/4:ℚ) < 1 ∧
      (100:ℚ) - 0 ≤ 150 ∧ (150:ℚ) < 400 - 0) ∧
    (200 ≤ (handlePointerUpVel 0 0 0 0 0 100 (1/2) (1/4)).2 ∧
      (handlePointerUpVel 0 0 0 0 0 100 (1/2) (1/4)).2 ≤ 360) ∧
    handlePointerUpVel 0 0 0 100 0 400 (1/2) (1/4) =
      ((100 - 0) / ((400 - 0) / 1000) * DRAG_MULTIPLIER,
       (0 - 0) / ((400 - 0) / 1000) * DRAG_MULTIPLIER) ∧
    0 < (handlePointerUpVel 0 0 0 100 0 400 (1/2) (1/4)).1 := by
  have hclick := (handlePointerUpVel_click_drag 0 0 0 0 0 100 (1/2) (1/4)
    ⟨by norm_num, by norm_num⟩ ⟨by norm_num, by norm_num⟩).1 (by norm_num)
  have hdrag := (handlePointerUpVel_click_drag 0 0 0 100 0 400 (1/2) (1/4)
    ⟨by norm_num, by norm_num⟩ ⟨by norm_num, by norm_num⟩).2 (by norm_num)
  exact ⟨⟨by norm_num, by norm_num, by norm_num, by norm_num, by norm_num,
    by norm_num⟩, ⟨hclick.2.2.1, hclick.2.2.2⟩, hdrag.1,
    hdrag.2.1 (by norm_num)⟩

/-! ## Speed clamp (`clampBodySpeed`, physics.ts 427-434)

`Math.hypot(v.x, v.y)` is the Euclidean norm, so this part of the model
lives in `ℝ`.  A body's linear velocity is the pair `(vx, vy)` in
meters/second; `setLinearVelocity` is modelled by returning the new pair. -/

/-- `clampBodySpeed(body, maxSpeedMps)`: if the speed exceeds the cap (and
is positive), rescale the velocity by `maxSpeedMps / speed`. -/
noncomputable def clampBodySpeed (maxSpeedMps vx vy : ℝ) : ℝ × ℝ :=
  let speed := Real.sqrt (vx ^ 2 + vy ^ 2)
  if maxSpeedMps < speed ∧ 0 < speed then
    (vx * (maxSpeedMps / speed), vy * (maxSpeedMps / speed))
  else
    (vx, vy)

/-- When the guard fails the velocity is returned unchanged. -/
theorem clampBodySpeed_of_le (maxSpeedMps vx vy : ℝ)
    (h : ¬(maxSpeedMps < Real.sqrt (vx ^ 2 + vy ^ 2) ∧
      0 < Real.sqrt (vx ^ 2 + vy ^ 2))) :
    clampBodySpeed maxSpeedMps vx vy = (vx, vy) := by
  simp only [clampBodySpeed, if_neg h]

/-- When the speed exceeds the cap the velocity is rescaled, and (for a
nonnegative cap) the rescaled velocity has speed exactly the cap. -/
theorem clampBodySpeed_of_over (maxSpeedMps vx vy : ℝ) (hcap : 0 ≤ maxSpeedMps)
    (hover : maxSpeedMps < Real.sqrt (vx ^ 2 + vy ^ 2)) :
    clampBodySpeed maxSpeedMps vx vy =
      (vx * (maxSpeedMps / Real.sqrt (vx ^ 2 + vy ^ 2)),
       vy * (maxSpeedMps / Real.sqrt (vx ^ 2 + vy ^ 2))) ∧
    Real.sqrt ((clampBodySpeed maxSpeedMps vx vy).1 ^ 2 +
        (clampBodySpeed maxSpeedMps vx vy).2 ^ 2) = maxSpeedMps := by
  have hpos : 0 < Real.sqrt (vx ^ 2 + vy ^ 2) := lt_of_le_of_lt hcap hover
  have heq : clampBodySpeed maxSpeedMps vx vy =
      (vx * (maxSpeedMps / Real.sqrt (vx ^ 2 + vy ^ 2)),
       vy * (maxSpeedMps / Real.sqrt (vx ^ 2 + vy ^ 2))) := by
    simp only [clampBodySpeed, if_pos (And.intro hover hpos)]
  refine ⟨heq, ?_⟩
  rw [heq]
  have hs : 0 ≤ maxSpeedMps / Real.sqrt (vx ^ 2 + vy ^ 2) :=
    div_nonneg hcap (le_of_lt hpos)
  have hexp : (vx * (maxSpeedMps / Real.sqrt (vx ^ 2 + vy ^ 2))) ^ 2 +
      (vy * (maxSpeedMps / Real.sqrt (vx ^ 2 + vy ^ 2))) ^ 2 =
      (maxSpeedMps / Real.sqrt (vx ^ 2 + vy ^ 2)) ^ 2 * (vx ^ 2 + vy ^ 2) := by
    ring
  rw [hexp, Real.sqrt_mul (sq_nonneg _), Real.sqrt_sq_eq_abs, abs_of_nonneg hs]
  exact div_mul_cancel₀ _ (ne_of_gt hpos)

/-- C7 (amended). Speed clamp with a nonnegative cap: applying
`clampBodySpeed` twice yields the same velocity as once; a body at or under
the cap is unchanged; a body over the cap is rescaled to speed exactly the
cap with its direction preserved (a nonnegative multiple of the old
velocity).  For a negative cap idempotence fails — see the
counterexample. -/
theorem clampBodySpeed_idempotent (maxSpeedMps vx vy : ℝ)
    (hcap : 0 ≤ maxSpeedMps) :
    (clampBodySpeed maxSpeedMps (clampBodySpeed maxSpeedMps vx vy).1
        (clampBodySpeed maxSpeedMps vx vy).2 =
      clampBodySpeed maxSpeedMps vx vy) ∧
    (Real.sqrt (vx ^ 2 + vy ^ 2) ≤ maxSpeedMps →
      clampBodySpeed maxSpeedMps vx vy = (vx, vy)) ∧
    (maxSpeedMps < Real.sqrt (vx ^ 2 + vy ^ 2) →
      Real.sqrt ((clampBodySpeed maxSpeedMps vx vy).1 ^ 2 +
          (clampBodySpeed maxSpeedMps vx vy).2 ^ 2) = maxSpeedMps ∧
      ∃ s : ℝ, 0 ≤ s ∧
        clampBodySpeed maxSpeedMps vx vy = (s * vx, s * vy)) := by
  refine ⟨?_, ?_, ?_⟩
  · by_cases hover : maxSpeedMps < Real.sqrt (vx ^ 2 + vy ^ 2)
    · obtain ⟨-, hspeed⟩ := clampBodySpeed_of_over maxSpeedMps vx vy hcap hover
      apply clampBodySpeed_of_le
      rw [hspeed]
      rintro ⟨hlt, -⟩
      exact lt_irrefl _ hlt
    · have hun : clampBodySpeed maxSpeedMps vx vy = (vx, vy) :=
        clampBodySpeed_of_le _ _ _ (by rintro ⟨hlt, -⟩; exact hover hlt)
      rw [hun]
      exact hun
  · intro hle
    exact clampBodySpeed_of_le _ _ _ (by rintro ⟨hlt, -⟩; exact absurd hle (not_le.mpr hlt))
  · intro hover
    obtain ⟨heq, hspeed⟩ := clampBodySpeed_of_over maxSpeedMps vx vy hcap hover
    have hpos : 0 < Real.sqrt (vx ^ 2 + vy ^ 2) := lt_of_le_of_lt hcap hover
    refine ⟨hspeed, maxSpeedMps / Real.sqrt (vx ^ 2 + vy ^ 2),
      div_nonneg hcap (le_of_lt hpos), ?_⟩
    rw [heq]
    simp [mul_comm]

/-- Witness for the amended C7 at cap `2` and velocity `(3, 4)`
(speed `5 > 2`). -/
theorem clampBodySpeed_idempotent_witness :
    (0:ℝ) ≤ 2 ∧
    (clampBodySpeed 2 (clampBodySpeed 2 3 4).1 (clampBodySpeed 2 3 4).2 =
        clampBodySpeed 2 3 4) ∧
    ((2:ℝ) < Real.sqrt ((3:ℝ) ^ 2 + (4:ℝ) ^ 2) ∧
      Real.sqrt ((clampBodySpeed 2 3 4).1 ^ 2 + (clampBodySpeed 2 3 4).2 ^ 2)
        = 2) := by
  have h5 : Real.sqrt ((3:ℝ) ^ 2 + (4:ℝ) ^ 2) = 5 := by
    rw [show ((3:ℝ) ^ 2 + (4:ℝ) ^ 2) = 5 ^ 2 by norm_num,
      Real.sqrt_sq (by norm_num)]
  have hover : (2:ℝ) < Real.sqrt ((3:ℝ) ^ 2 + (4:ℝ) ^ 2) := by
    rw [h5]; norm_num
  have hthm := clampBodySpeed_idempotent 2 3 4 (by norm_num)
  exact ⟨by norm_num, hthm.1, hover, (hthm.2.2 hover).1⟩

/-- Counterexample to C7 as stated (over "every cap"): with the negative
cap `-1` and velocity `(1, 0)`, one application yields `(-1, 0)` and a
second application yields `(1, 0)` again — `clampBodySpeed` is not
idempotent there. -/
theorem clampBodySpeed_neg_cap_not_idempotent :
    clampBodySpeed (-1) 1 0 = (-1, 0) ∧
    clampBodySpeed (-1) (clampBodySpeed (-1) 1 0).1 (clampBodySpeed (-1) 1 0).2
      ≠ clampBodySpeed (-1) 1 0 := by
  have h1 : Real.sqrt ((1:ℝ) ^ 2 + (0:ℝ) ^ 2) = 1 := by
    rw [show ((1:ℝ) ^ 2 + (0:ℝ) ^ 2) = 1 ^ 2 by norm_num,
      Real.sqrt_sq (by norm_num)]
  have hm1 : Real.sqrt ((-1:ℝ) ^ 2 + (0:ℝ) ^ 2) = 1 := by
    rw [show ((-1:ℝ) ^ 2 + (0:ℝ) ^ 2) = 1 ^ 2 by norm_num,
      Real.sqrt_sq (by norm_num)]
  have hfst : clampBodySpeed (-1) 1 0 = (-1, 0) := by
    simp only [clampBodySpeed, h1]
    rw [if_pos (by norm_num)]
    norm_num
  have hsnd : clampBodySpeed (-1) (-1) 0 = (1, 0) := by
    simp only [clampBodySpeed, hm1]
    rw [if_pos (by norm_num)]
    norm_num
  refine ⟨hfst, ?_⟩
  rw [hfst]
  simp only
  rw [hsnd]
  intro hcon
  have := congrArg Prod.fst hcon
  norm_num at this

/-! ## Radial force (`applyRadialForce`, physics.ts 396-424)

The source iterates all dynamic bodies and, per body, either `continue`s
(within 1 px of the origin) or applies one force to the body's center.
`applyRadialForceBody` is that per-body computation: `none` models the
skip, `some (fx, fy)` the force handed to `applyForceToCenter`, in
simulation units.  The body center `(cX, cY)` is in meters. -/

/-- The per-body force of `applyRadialForce(world, ppm, originPx, strength,
mode)`: direction from the body's pixel center to the origin, normalized,
scaled by `strength` and a linear falloff that reaches zero at 300 px,
negated for `repel`, converted back to meters. -/
noncomputable def applyRadialForceBody (pixelsPerMeter originX originY strength : ℝ)
    (attract : Bool) (cX cY : ℝ) : Option (ℝ × ℝ) :=
  let cx := metersToPixels cX pixelsPerMeter
  let cy := metersToPixels cY pixelsPerMeter
  let dx := originX - cx
  let dy := originY - cy
  let distPx := Real.sqrt (dx ^ 2 + dy ^ 2)
  if distPx < 1 then none
  else
    let nx := dx / distPx
    let ny := dy / distPx
    let maxRadiusPx : ℝ := 300
    let falloff := max 0 (1 - min distPx maxRadiusPx / maxRadiusPx)
    let s := (if attract then 1 else -1) * strength * falloff
    let fxPx := nx * s
    let fyPx := ny * s
    some (pixelsToMeters fxPx pixelsPerMeter, pixelsToMeters fyPx pixelsPerMeter)

/-- C9. Radial force guards: a body within 1 px of the origin is skipped
outright (no normalization, no division); otherwise the force applied is a
multiple `c` of the body-to-origin pixel vector `(dx, dy)`, where `c`
carries the mode sign and the linear falloff over the distance — so for
`attract` (with nonnegative strength) it points toward the origin
(`c ≥ 0`), for `repel` away from it (`c ≤ 0`) — and a body at 300 px or
farther receives exactly the zero force.  The divisors `distPx ≥ 1` and
`ppm > 0` are bounded away from zero, which is the model-level reading of
"never produces non-finite values". -/
theorem applyRadialForceBody_guards (pixelsPerMeter originX originY strength cX cY : ℝ)
    (attract : Bool) (dx dy distPx : ℝ)
    (hppm : 0 < pixelsPerMeter) (hstr : 0 ≤ strength)
    (hdx : dx = originX - metersToPixels cX pixelsPerMeter)
    (hdy : dy = originY - metersToPixels cY pixelsPerMeter)
    (hdist : distPx = Real.sqrt (dx ^ 2 + dy ^ 2)) :
    (distPx < 1 →
      applyRadialForceBody pixelsPerMeter originX originY strength attract cX cY
        = none) ∧
    (1 ≤ distPx →
      (∃ c : ℝ,
        applyRadialForceBody pixelsPerMeter originX originY strength attract cX cY
          = some (c * dx, c * dy) ∧
        c = (if attract then 1 else -1) * strength *
          max 0 (1 - min distPx 300 / 300) / distPx / pixelsPerMeter ∧
        (attract = true → 0 ≤ c) ∧
        (attract = false → c ≤ 0)) ∧
      (300 ≤ distPx →
        applyRadialForceBody pixelsPerMeter originX originY strength attract cX cY
          = some (0, 0))) := by
  subst hdx hdy hdist
  constructor
  · intro hlt
    simp only [applyRadialForceBody, if_pos hlt]
  · intro hge
    have hnot : ¬(Real.sqrt
        ((originX - metersToPixels cX pixelsPerMeter) ^ 2 +
          (originY - metersToPixels cY pixelsPerMeter) ^ 2) < 1) :=
      not_lt.mpr hge
    have hpos : (0:ℝ) < Real.sqrt
        ((originX - metersToPixels cX pixelsPerMeter) ^ 2 +
          (originY - metersToPixels cY pixelsPerMeter) ^ 2) :=
      lt_of_lt_of_le one_pos hge
    constructor
    · refine ⟨(if attract then 1 else -1) * strength *
        max 0 (1 - min (Real.sqrt
          ((originX - metersToPixels cX pixelsPerMeter) ^ 2 +
            (originY - metersToPixels cY pixelsPerMeter) ^ 2)) 300 / 300) /
        Real.sqrt ((originX - metersToPixels cX pixelsPerMeter) ^ 2 +
          (originY - metersToPixels cY pixelsPerMeter) ^ 2) / pixelsPerMeter,
        ?_, rfl, ?_, ?_⟩
      · simp only [applyRadialForceBody, if_neg hnot, pixelsToMeters,
          Option.some.injEq, Prod.mk.injEq]
        constructor <;> ring
      · intro hattr
        rw [hattr]
        simp only [if_pos rfl]
        have hfall : (0:ℝ) ≤ max 0 (1 - min (Real.sqrt
            ((originX - metersToPixels cX pixelsPerMeter) ^ 2 +
              (originY - metersToPixels cY pixelsPerMeter) ^ 2)) 300 / 300) :=
          le_max_left _ _
        refine div_nonneg (div_nonneg ?_ (le_of_lt hpos)) (le_of_lt hppm)
        exact mul_nonneg (mul_nonneg zero_le_one hstr) hfall
      · intro hattr
        rw [hattr, if_neg Bool.false_ne_true]
        have hfall : (0:ℝ) ≤ max 0 (1 - min (Real.sqrt
            ((originX - metersToPixels cX pixelsPerMeter) ^ 2 +
              (originY - metersToPixels cY pixelsPerMeter) ^ 2)) 300 / 300) :=
          le_max_left _ _
        have hnum : (-1 : ℝ) * strength *
            max 0 (1 - min (Real.sqrt
              ((originX - metersToPixels cX pixelsPerMeter) ^ 2 +
                (originY - metersToPixels cY pixelsPerMeter) ^ 2)) 300 / 300)
            ≤ 0 := by nlinarith
        have h1 : (-1 : ℝ) * strength *
            max 0 (1 - min (Real.sqrt
              ((originX - metersToPixels cX pixelsPerMeter) ^ 2 +
                (originY - metersToPixels cY pixelsPerMeter) ^ 2)) 300 / 300) /
            Real.sqrt ((originX - metersToPixels cX pixelsPerMeter) ^ 2 +
              (originY - metersToPixels cY pixelsPerMeter) ^ 2) ≤ 0 :=
          div_nonpos_of_nonpos_of_nonneg hnum (le_of_lt hpos)
        exact div_nonpos_of_nonpos_of_nonneg h1 (le_of_lt hppm)
    · intro hfar
      have hmin : min (Real.sqrt
          ((originX - metersToPixels cX pixelsPerMeter) ^ 2 +
            (originY - metersToPixels cY pixelsPerMeter) ^ 2)) 300 = 300 :=
        min_eq_right hfar
      simp only [applyRadialForceBody, if_neg hnot, hmin]
      norm_num [pixelsToMeters]

/-- Witness for C9 at `ppm = 50`, origin `(0,0)`, strength `2500`,
attract mode: a body centered at `(8, 0)` meters (400 px away, beyond the
300 px radius) receives the zero force; a body at `(1/100, 0)` meters
(0.5 px away) is skipped. -/
theorem applyRadialForceBody_guards_witness :
    ((0:ℝ) < 50 ∧ (0:ℝ) ≤ 2500 ∧
      Real.sqrt (((0:ℝ) - metersToPixels 8 50) ^ 2 +
        ((0:ℝ) - metersToPixels 0 50) ^ 2) = 400 ∧
      Real.sqrt (((0:ℝ) - metersToPixels (1/100) 50) ^ 2 +
        ((0:ℝ) - metersToPixels 0 50) ^ 2) = 1/2) ∧
    applyRadialForceBody 50 0 0 2500 true 8 0 = some (0, 0) ∧
    applyRadialForceBody 50 0 0 2500 true (1/100) 0 = none := by
  have h400 : Real.sqrt (((0:ℝ) - metersToPixels 8 50) ^ 2 +
      ((0:ℝ) - metersToPixels 0 50) ^ 2) = 400 := by
    rw [show (((0:ℝ) - metersToPixels 8 50) ^ 2 +
        ((0:ℝ) - metersToPixels 0 50) ^ 2) = 400 ^ 2 by
      norm_num [metersToPixels]]
    exact Real.sqrt_sq (by norm_num)
  have hhalf : Real.sqrt (((0:ℝ) - metersToPixels (1/100) 50) ^ 2 +
      ((0:ℝ) - metersToPixels 0 50) ^ 2) = 1/2 := by
    rw [show (((0:ℝ) - metersToPixels (1/100) 50) ^ 2 +
        ((0:ℝ) - metersToPixels 0 50) ^ 2) = (1/2) ^ 2 by
      norm_num [metersToPixels]]
    exact Real.sqrt_sq (by norm_num)
  have hfar := ((applyRadialForceBody_guards 50 0 0 2500 8 0 true
      (0 - metersToPixels 8 50) (0 - metersToPixels 0 50) 400
      (by norm_num) (by norm_num) rfl rfl h400.symm).2
      (by norm_num)).2 (by norm_num)
  have hskip := (applyRadialForceBody_guards 50 0 0 2500 (1/100) 0 true
      (0 - metersToPixels (1/100) 50) (0 - metersToPixels 0 50) (1/2)
      (by norm_num) (by norm_num) rfl rfl hhalf.symm).1 (by norm_num)
  exact ⟨⟨by norm_num, by norm_num, h400, hhalf⟩, hfar, hskip⟩

end Procisics
